import Mathlib

/-!
Verification development for the jeepgame repository (multiplayer hill-climb
game over a looping world).

Modelling conventions:
* JavaScript numbers are modelled as rationals (`ℚ`); arithmetic in the
  relevant code paths uses only field operations, `Math.floor`, comparisons
  and `Math.sin`.
* `Math.sin` is abstracted as an explicit function parameter `msin : ℚ → ℚ`
  (a fixed pure function, exactly like the host's `Math.sin`); properties
  that need boundedness take the hypothesis `∀ y, |msin y| ≤ 1`.
* `Math.PI` is the IEEE-754 double closest to π, whose exact rational value
  is `884279719003555 / 2 ^ 48`.
* The JavaScript remainder operator `%` truncates toward zero; it is
  modelled by `jsMod` below.
* Server timestamps (`Date.now()`) are modelled as integers (milliseconds).
-/

/-- Shared constant `WORLD_WIDTH` from `shared/types` (the world circumference
`W`, 10000 px). -/
def WORLD_WIDTH : ℚ := 10000

/-- Truncation toward zero, the rounding used by the JavaScript `%` operator. -/
def jsTrunc (q : ℚ) : ℤ := if 0 ≤ q then ⌊q⌋ else ⌈q⌉

/-- The JavaScript remainder operator `x % m` (sign follows the dividend). -/
def jsMod (x m : ℚ) : ℚ := x - m * jsTrunc (x / m)

/-- Wrap normalization `((x % WORLD_WIDTH) + WORLD_WIDTH) % WORLD_WIDTH`, as
written in `Terrain.getTerrainHeight` (Terrain.ts line 45). -/
def wrap (x : ℚ) : ℚ := jsMod (jsMod x WORLD_WIDTH + WORLD_WIDTH) WORLD_WIDTH

/-- The net seam-crossing displacement computed by `GhostVehicle.update`
(GhostVehicle.ts lines 60-68): the raw difference `dx = targetX - currentX`
is shifted by `±WORLD_WIDTH` when `Math.abs(dx) > WORLD_WIDTH / 2` (shifting
`currentX` up when `dx > 0`, otherwise shifting `targetX` up, which changes
`targetX - currentX` by `-W` resp. `+W`). -/
def wrapDelta (a b : ℚ) : ℚ :=
  let dx := b - a
  if |dx| > WORLD_WIDTH / 2 then
    (if dx > 0 then dx - WORLD_WIDTH else dx + WORLD_WIDTH)
  else dx

lemma jsMod_of_nonneg (x m : ℚ) (hx : 0 ≤ x) (hm : 0 < m) :
    jsMod x m = m * Int.fract (x / m) := by
  have hq : 0 ≤ x / m := div_nonneg hx hm.le
  simp only [jsMod, jsTrunc, if_pos hq, Int.fract]
  have hmne : m ≠ 0 := hm.ne'
  field_simp

lemma jsMod_of_neg (x m : ℚ) (hx : x < 0) (hm : 0 < m) :
    jsMod x m = -(m * Int.fract (-x / m)) := by
  have hq : ¬ (0 ≤ x / m) := by
    push_neg
    exact div_neg_of_neg_of_pos hx hm
  simp only [jsMod, jsTrunc, if_neg hq, Int.fract]
  have hceil : (⌈x / m⌉ : ℤ) = -⌊-(x / m)⌋ := by
    rw [Int.floor_neg]
    ring
  rw [hceil, neg_div]
  push_cast
  have hmne : m ≠ 0 := hm.ne'
  field_simp
  ring

lemma jsMod_nonneg_bounds (x m : ℚ) (hx : 0 ≤ x) (hm : 0 < m) :
    0 ≤ jsMod x m ∧ jsMod x m < m := by
  rw [jsMod_of_nonneg x m hx hm]
  constructor
  · exact mul_nonneg hm.le (Int.fract_nonneg _)
  · calc m * Int.fract (x / m) < m * 1 :=
          (mul_lt_mul_left hm).mpr (Int.fract_lt_one _)
    _ = m := mul_one m

lemma jsMod_neg_bounds (x m : ℚ) (hx : x < 0) (hm : 0 < m) :
    -m < jsMod x m ∧ jsMod x m ≤ 0 := by
  rw [jsMod_of_neg x m hx hm]
  have h1 : 0 ≤ m * Int.fract (-x / m) :=
    mul_nonneg hm.le (Int.fract_nonneg _)
  have h2 : m * Int.fract (-x / m) < m := by
    calc m * Int.fract (-x / m) < m * 1 :=
          (mul_lt_mul_left hm).mpr (Int.fract_lt_one _)
    _ = m := mul_one m
  constructor <;> linarith

lemma WORLD_WIDTH_pos : (0 : ℚ) < WORLD_WIDTH := by norm_num [WORLD_WIDTH]

/-- Closed form for the double-remainder normalization: `wrap` is the
floor-based modulus into `[0, WORLD_WIDTH)`. -/
lemma wrap_eq_fract (x : ℚ) : wrap x = WORLD_WIDTH * Int.fract (x / WORLD_WIDTH) := by
  have hW : (0 : ℚ) < WORLD_WIDTH := WORLD_WIDTH_pos
  have hWne : WORLD_WIDTH ≠ 0 := hW.ne'
  unfold wrap
  rcases le_or_lt 0 x with hx | hx
  · rw [jsMod_of_nonneg x _ hx hW]
    have hy : 0 ≤ WORLD_WIDTH * Int.fract (x / WORLD_WIDTH) + WORLD_WIDTH := by
      have := Int.fract_nonneg (x / WORLD_WIDTH)
      nlinarith
    rw [jsMod_of_nonneg _ _ hy hW]
    have hdiv : (WORLD_WIDTH * Int.fract (x / WORLD_WIDTH) + WORLD_WIDTH) / WORLD_WIDTH
        = Int.fract (x / WORLD_WIDTH) + 1 := by
      field_simp
      ring
    rw [hdiv]
    have : Int.fract (Int.fract (x / WORLD_WIDTH) + 1) = Int.fract (x / WORLD_WIDTH) := by
      rw [show ((1 : ℚ)) = ((1 : ℤ) : ℚ) by norm_num, Int.fract_add_int,
        Int.fract_fract]
    rw [this]
  · rw [jsMod_of_neg x _ hx hW]
    have hy : 0 ≤ -(WORLD_WIDTH * Int.fract (-x / WORLD_WIDTH)) + WORLD_WIDTH := by
      have := Int.fract_lt_one (-x / WORLD_WIDTH)
      nlinarith
    rw [jsMod_of_nonneg _ _ hy hW]
    have hdiv : (-(WORLD_WIDTH * Int.fract (-x / WORLD_WIDTH)) + WORLD_WIDTH) / WORLD_WIDTH
        = -Int.fract (-x / WORLD_WIDTH) + 1 := by
      field_simp
      ring
    rw [hdiv]
    have h1 : Int.fract (-Int.fract (-x / WORLD_WIDTH) + 1)
        = Int.fract (-Int.fract (-x / WORLD_WIDTH)) := by
      rw [show ((1 : ℚ)) = ((1 : ℤ) : ℚ) by norm_num, Int.fract_add_int]
    have h2 : Int.fract (-Int.fract (-x / WORLD_WIDTH)) = Int.fract (x / WORLD_WIDTH) := by
      have : -Int.fract (-x / WORLD_WIDTH) = x / WORLD_WIDTH + (⌊-x / WORLD_WIDTH⌋ : ℚ) := by
        rw [Int.fract]
        rw [neg_div]
        ring
      rw [this, Int.fract_add_int]
    rw [h1, h2]

lemma wrap_nonneg (x : ℚ) : 0 ≤ wrap x := by
  rw [wrap_eq_fract]
  exact mul_nonneg WORLD_WIDTH_pos.le (Int.fract_nonneg _)

lemma wrap_lt (x : ℚ) : wrap x < WORLD_WIDTH := by
  rw [wrap_eq_fract]
  calc WORLD_WIDTH * Int.fract (x / WORLD_WIDTH) < WORLD_WIDTH * 1 :=
        (mul_lt_mul_left WORLD_WIDTH_pos).mpr (Int.fract_lt_one _)
  _ = WORLD_WIDTH := mul_one _

lemma wrap_add_int_mul (x : ℚ) (k : ℤ) : wrap (x + WORLD_WIDTH * k) = wrap x := by
  rw [wrap_eq_fract, wrap_eq_fract]
  have hWne : WORLD_WIDTH ≠ 0 := WORLD_WIDTH_pos.ne'
  have : (x + WORLD_WIDTH * k) / WORLD_WIDTH = x / WORLD_WIDTH + (k : ℚ) := by
    field_simp
    ring
  rw [this, Int.fract_add_int]

lemma wrap_add_W (x : ℚ) : wrap (x + WORLD_WIDTH) = wrap x := by
  have := wrap_add_int_mul x 1
  simpa using this

lemma wrap_sub_W (x : ℚ) : wrap (x - WORLD_WIDTH) = wrap x := by
  have := wrap_add_int_mul x (-1)
  simpa [sub_eq_add_neg] using this

lemma wrap_eq_self (x : ℚ) (h0 : 0 ≤ x) (h1 : x < WORLD_WIDTH) : wrap x = x := by
  rw [wrap_eq_fract]
  have hW : (0 : ℚ) < WORLD_WIDTH := WORLD_WIDTH_pos
  have hq0 : 0 ≤ x / WORLD_WIDTH := div_nonneg h0 hW.le
  have hq1 : x / WORLD_WIDTH < 1 := (div_lt_one hW).mpr h1
  rw [Int.fract_eq_self.mpr ⟨hq0, hq1⟩]
  field_simp

/-- C1 counterexample: the claim asserts the wrap-delta adjustment always
lands in the half-open interval `(-W/2, W/2]`, but for the in-range pair
`a = 5000`, `b = 0` (exactly opposite points, `W = 10000`) the raw difference
is `-5000`, whose magnitude does not exceed `W/2`, so no shift fires and the
delta is exactly `-W/2`, outside `(-W/2, W/2]`. -/
theorem wrapDelta_claim_counterexample :
    (0 : ℚ) ≤ 5000 ∧ (5000 : ℚ) < WORLD_WIDTH ∧ (0 : ℚ) ≤ 0 ∧ (0 : ℚ) < WORLD_WIDTH ∧
    wrapDelta 5000 0 = -(WORLD_WIDTH / 2) ∧
    ¬ (-(WORLD_WIDTH / 2) < wrapDelta 5000 0) := by
  norm_num [wrapDelta, WORLD_WIDTH]

/-- C1 (amended): `wrap x` always lies in `[0, W)`; and for positions
`a, b ∈ [0, W)` the wrap-delta adjustment yields a delta in the CLOSED
interval `[-W/2, W/2]` (the endpoint `-W/2` is attained at exactly opposite
positions, as the counterexample shows), and `wrap (a + delta) = wrap b`. -/
theorem wrap_and_wrapDelta_correct :
    (∀ x : ℚ, 0 ≤ wrap x ∧ wrap x < WORLD_WIDTH) ∧
    (∀ a b : ℚ, 0 ≤ a → a < WORLD_WIDTH → 0 ≤ b → b < WORLD_WIDTH →
      (-(WORLD_WIDTH / 2) ≤ wrapDelta a b ∧ wrapDelta a b ≤ WORLD_WIDTH / 2) ∧
      wrap (a + wrapDelta a b) = wrap b) := by
  refine ⟨fun x => ⟨wrap_nonneg x, wrap_lt x⟩, fun a b ha0 ha1 hb0 hb1 => ?_⟩
  have hW : (0 : ℚ) < WORLD_WIDTH := WORLD_WIDTH_pos
  simp only [wrapDelta]
  split_ifs with h1 h2
  · -- |b - a| > W/2 and b - a > 0 : delta = (b - a) - W
    rw [abs_of_pos h2] at h1
    constructor
    · constructor
      · linarith
      · linarith
    · have : a + (b - a - WORLD_WIDTH) = b - WORLD_WIDTH := by ring
      rw [this, wrap_sub_W]
  · -- |b - a| > W/2 and b - a ≤ 0 : delta = (b - a) + W
    have hdx : b - a < 0 := by
      rcases lt_or_eq_of_le (not_lt.mp h2) with h | h
      · exact h
      · exfalso
        rw [h] at h1
        simp at h1
        linarith
    have habs : |b - a| = -(b - a) := abs_of_neg hdx
    rw [habs] at h1
    constructor
    · constructor
      · linarith
      · linarith
    · have : a + (b - a + WORLD_WIDTH) = b + WORLD_WIDTH := by ring
      rw [this, wrap_add_W]
  · -- |b - a| ≤ W/2 : delta = b - a
    have habs := abs_le.mp (not_lt.mp h1)
    constructor
    · constructor
      · linarith [habs.1]
      · linarith [habs.2]
    · have : a + (b - a) = b := by ring
      rw [this]

/-- Witness for C1 at concrete inputs `x = 9000`, `a = 9000`, `b = 100`. -/
theorem wrap_and_wrapDelta_correct_witness :
    ((0 : ℚ) ≤ wrap 9000 ∧ wrap 9000 < WORLD_WIDTH) ∧
    ((-(WORLD_WIDTH / 2) ≤ wrapDelta 9000 100 ∧ wrapDelta 9000 100 ≤ WORLD_WIDTH / 2) ∧
      wrap (9000 + wrapDelta 9000 100) = wrap 100) :=
  ⟨wrap_and_wrapDelta_correct.1 9000,
    wrap_and_wrapDelta_correct.2 9000 100 (by norm_num)
      (by norm_num [WORLD_WIDTH]) (by norm_num) (by norm_num [WORLD_WIDTH])⟩

/-- Render-position correction of `GhostVehicle.renderAt` (GhostVehicle.ts
lines 95-103): the drawn x is shifted by `±WORLD_WIDTH` when the distance
`state.x - localPlayerX` to the local viewer exceeds `WORLD_WIDTH / 2` in
magnitude (down when the ghost is ahead, up when behind). -/
def renderX (stateX localPlayerX : ℚ) : ℚ :=
  let distToLocal := stateX - localPlayerX
  if |distToLocal| > WORLD_WIDTH / 2 then
    (if distToLocal > 0 then stateX - WORLD_WIDTH else stateX + WORLD_WIDTH)
  else stateX

/-- C6: the render-position correction shifts the ghost's drawn x by
`±WORLD_WIDTH` exactly when the distance between ghost x and viewer x exceeds
`W/2` (and otherwise draws it unshifted); for in-range positions the drawn
copy is the nearer wrapped copy (within `W/2` of the viewer); in particular a
ghost at `x = 150` viewed from `x = 9900` is drawn at `x = 10150`. -/
theorem renderX_correct :
    (∀ sx lx : ℚ,
      (|sx - lx| > WORLD_WIDTH / 2 →
        renderX sx lx = sx - WORLD_WIDTH ∨ renderX sx lx = sx + WORLD_WIDTH) ∧
      (¬ |sx - lx| > WORLD_WIDTH / 2 → renderX sx lx = sx) ∧
      (0 ≤ sx → sx < WORLD_WIDTH → 0 ≤ lx → lx < WORLD_WIDTH →
        |renderX sx lx - lx| ≤ WORLD_WIDTH / 2)) ∧
    renderX 150 9900 = 10150 ∧ (10150 : ℚ) = 150 + WORLD_WIDTH := by
  refine ⟨fun sx lx => ⟨?_, ?_, ?_⟩, ?_, by norm_num [WORLD_WIDTH]⟩
  · intro h
    simp only [renderX, if_pos h]
    split_ifs with h2
    · exact Or.inl rfl
    · exact Or.inr rfl
  · intro h
    simp only [renderX, if_neg h]
  · intro hs0 hs1 hl0 hl1
    simp only [renderX]
    split_ifs with h1 h2
    · rw [abs_of_pos h2] at h1
      rw [abs_le]
      constructor <;> linarith
    · have hne : sx - lx ≠ 0 := by
        intro h0
        rw [h0] at h1
        simp at h1
        linarith [WORLD_WIDTH_pos]
      have hneg : sx - lx < 0 := lt_of_le_of_ne (not_lt.mp h2) hne
      rw [abs_of_neg hneg] at h1
      rw [abs_le]
      constructor <;> linarith
    · exact not_lt.mp h1
  · norm_num [renderX, WORLD_WIDTH]

/-- Witness for C6 at the end-to-end scenario input: ghost `x = 150`,
viewer `x = 9900`. -/
theorem renderX_correct_witness :
    (renderX 150 9900 = 150 - WORLD_WIDTH ∨ renderX 150 9900 = 150 + WORLD_WIDTH) ∧
    |renderX 150 9900 - 9900| ≤ WORLD_WIDTH / 2 :=
  ⟨(renderX_correct.1 150 9900).1 (by norm_num [WORLD_WIDTH]),
   (renderX_correct.1 150 9900).2.2 (by norm_num) (by norm_num [WORLD_WIDTH])
     (by norm_num) (by norm_num [WORLD_WIDTH])⟩

/-- Terrain generator instance (Terrain.ts): only the seed takes part in
height computation; the Phaser scene and graphics handles are rendering
collaborators outside the algorithmic core. -/
structure Terrain where
  seed : ℚ
deriving DecidableEq

/-- Constant `segmentWidth` of Terrain.ts line 15. -/
def Terrain.segmentWidth : ℚ := 40

/-- Constant `baseHeight` of Terrain.ts line 16. -/
def Terrain.baseHeight : ℚ := 450

/-- Constant `amplitude1` of Terrain.ts line 17. -/
def Terrain.amplitude1 : ℚ := 50

/-- Constant `amplitude2` of Terrain.ts line 18. -/
def Terrain.amplitude2 : ℚ := 25

/-- Constant `amplitude3` of Terrain.ts line 19. -/
def Terrain.amplitude3 : ℚ := 10

/-- Constant `frequency1` of Terrain.ts line 20. -/
def Terrain.frequency1 : ℚ := 0.002

/-- Constant `frequency2` of Terrain.ts line 21. -/
def Terrain.frequency2 : ℚ := 0.005

/-- Constant `frequency3` of Terrain.ts line 22. -/
def Terrain.frequency3 : ℚ := 0.015

/-- `Terrain.seededRandom` (Terrain.ts lines 37-41): positional pseudo-noise,
the fractional part of `Math.sin(x * 0.1 + seed) * 10000`. -/
def Terrain.seededRandom (t : Terrain) (msin : ℚ → ℚ) (x : ℚ) : ℚ :=
  let value := msin (x * 0.1 + t.seed) * 10000
  value - ⌊value⌋

/-- `Terrain.getHillHeight` (Terrain.ts lines 62-68): superposition of three
sine harmonics plus a small positional noise term, all seeded. -/
def Terrain.getHillHeight (t : Terrain) (msin : ℚ → ℚ) (x : ℚ) : ℚ :=
  let y1 := msin (x * Terrain.frequency1 + t.seed) * Terrain.amplitude1
  let y2 := msin (x * Terrain.frequency2 + t.seed * 2) * Terrain.amplitude2
  let y3 := msin (x * Terrain.frequency3 + t.seed * 3) * Terrain.amplitude3
  let noise := (t.seededRandom msin (x * 0.1) - 0.5) * 5
  Terrain.baseHeight + y1 + y2 + y3 + noise

/-- `Terrain.getTerrainHeight` (Terrain.ts lines 43-60): wrap-normalize x,
flat spawn zone below 400 with a quadratic blend above 300, hills elsewhere. -/
def Terrain.getTerrainHeight (t : Terrain) (msin : ℚ → ℚ) (x : ℚ) : ℚ :=
  let normalizedX := wrap x
  if normalizedX < 400 then
    let flatHeight := Terrain.baseHeight
    if normalizedX > 300 then
      let tt := (normalizedX - 300) / 100
      flatHeight + (t.getHillHeight msin normalizedX - flatHeight) * (tt * tt)
    else flatHeight
  else t.getHillHeight msin normalizedX

/-- Sample loop of `Terrain.generateTerrain` (Terrain.ts lines 72-78):
`for (x = 0; x <= WORLD_WIDTH; x += segmentWidth)` visits
`x = 40 * i` for `i = 0 .. 250`, i.e. `10000 / 40 + 1 = 251` samples. -/
def Terrain.samplePoints (t : Terrain) (msin : ℚ → ℚ) : List (ℚ × ℚ) :=
  (List.range (10000 / 40 + 1)).map fun i =>
    ((40 * i : ℕ), t.getTerrainHeight msin (40 * i))

/-- Loop-closure override of `generateTerrain` (Terrain.ts line 81):
`this.points[this.points.length - 1].y = this.points[0].y` — the last
sample keeps its x but takes the first sample's height. -/
def closeLoop (pts : List (ℚ × ℚ)) : List (ℚ × ℚ) :=
  match pts.head?, pts.getLast? with
  | some p0, some pl => pts.dropLast ++ [(pl.1, p0.2)]
  | _, _ => pts

/-- The generated profile `this.points` after the loop-closure override. -/
def Terrain.points (t : Terrain) (msin : ℚ → ℚ) : List (ℚ × ℚ) :=
  closeLoop (t.samplePoints msin)

lemma samplePoints_decomp (t : Terrain) (msin : ℚ → ℚ) :
    t.samplePoints msin =
      ((List.range 250).map fun i : ℕ =>
        (((40 * i : ℕ) : ℚ), t.getTerrainHeight msin (40 * i))) ++
      [((10000 : ℚ), t.getTerrainHeight msin 10000)] := by
  unfold Terrain.samplePoints
  rw [show (10000 / 40 + 1 : ℕ) = 250 + 1 from rfl, List.range_succ, List.map_append]
  norm_num

lemma samplePoints_head (t : Terrain) (msin : ℚ → ℚ) :
    (t.samplePoints msin).head? = some (0, t.getTerrainHeight msin 0) := by
  unfold Terrain.samplePoints
  rw [List.head?_map]
  rw [show (10000 / 40 + 1 : ℕ) = 250 + 1 from rfl, List.range_succ_eq_map]
  norm_num

lemma samplePoints_getLast (t : Terrain) (msin : ℚ → ℚ) :
    (t.samplePoints msin).getLast? = some (10000, t.getTerrainHeight msin 10000) := by
  rw [samplePoints_decomp, List.getLast?_concat]

lemma samplePoints_length (t : Terrain) (msin : ℚ → ℚ) :
    (t.samplePoints msin).length = 251 := by
  unfold Terrain.samplePoints
  simp

lemma points_eq (t : Terrain) (msin : ℚ → ℚ) :
    t.points msin =
      (t.samplePoints msin).dropLast ++ [((10000 : ℚ), t.getTerrainHeight msin 0)] := by
  simp only [Terrain.points, closeLoop, samplePoints_head, samplePoints_getLast]

/-- C2: the terrain height is a pure function of the seed, the coordinate and
the fixed constants (no global random state, no time dependence): two
independently constructed `Terrain` instances with the same seed return the
identical height at every x, for any fixed host sine function. -/
theorem terrainHeight_deterministic (msin : ℚ → ℚ) (t1 t2 : Terrain)
    (h : t1.seed = t2.seed) (x : ℚ) :
    t1.getTerrainHeight msin x = t2.getTerrainHeight msin x := by
  cases t1
  cases t2
  simp only [Terrain.mk.injEq] at h ⊢
  rw [h]

/-- Witness for C2 at seed `12345`, `x = 777`, with a concrete sine stand-in. -/
theorem terrainHeight_deterministic_witness :
    (Terrain.mk 12345).getTerrainHeight (fun q => q) 777
      = (Terrain.mk 12345).getTerrainHeight (fun q => q) 777 :=
  terrainHeight_deterministic (fun q => q) (Terrain.mk 12345) (Terrain.mk 12345) rfl 777

/-- C3: for every seed (and any sine function whatsoever), the generated
profile has exactly 251 samples spanning x = 0 .. 10000, and the last
sample's height equals the first sample's height. The proof never evaluates
the height function — the closure is forced by the explicit override in
`generateTerrain`, not by continuity of the heights. -/
theorem profile_loop_closure (t : Terrain) (msin : ℚ → ℚ) :
    ((t.points msin).getLast?).map Prod.snd = ((t.points msin).head?).map Prod.snd ∧
    (t.points msin).length = 251 ∧
    ((t.points msin).head?).map Prod.fst = some 0 ∧
    ((t.points msin).getLast?).map Prod.fst = some 10000 := by
  have hd : (t.points msin).head? = some (0, t.getTerrainHeight msin 0) := by
    rw [points_eq, samplePoints_decomp, List.dropLast_concat, List.head?_append,
      List.head?_map, show (250 : ℕ) = 249 + 1 from rfl, List.range_succ_eq_map]
    norm_num
  have hl : (t.points msin).getLast? = some (10000, t.getTerrainHeight msin 0) := by
    rw [points_eq, List.getLast?_concat]
  have hlen : (t.points msin).length = 251 := by
    rw [points_eq, List.length_append, List.length_dropLast, samplePoints_length]
    norm_num
  exact ⟨by simp [hd, hl], hlen, by simp [hd], by simp [hl]⟩

lemma seededRandom_bounds (t : Terrain) (msin : ℚ → ℚ) (x : ℚ) :
    0 ≤ t.seededRandom msin x ∧ t.seededRandom msin x < 1 := by
  have h : t.seededRandom msin x = Int.fract (msin (x * 0.1 + t.seed) * 10000) := rfl
  rw [h]
  exact ⟨Int.fract_nonneg _, Int.fract_lt_one _⟩

lemma getHillHeight_dist (t : Terrain) (msin : ℚ → ℚ) (hb : ∀ y, |msin y| ≤ 1)
    (x : ℚ) : |t.getHillHeight msin x - Terrain.baseHeight| ≤ 175 / 2 := by
  have h1 := abs_le.mp (hb (x * Terrain.frequency1 + t.seed))
  have h2 := abs_le.mp (hb (x * Terrain.frequency2 + t.seed * 2))
  have h3 := abs_le.mp (hb (x * Terrain.frequency3 + t.seed * 3))
  have h4 := seededRandom_bounds t msin (x * 0.1)
  simp only [Terrain.getHillHeight, Terrain.amplitude1, Terrain.amplitude2,
    Terrain.amplitude3]
  rw [abs_le]
  constructor <;>
    linarith [h1.1, h1.2, h2.1, h2.2, h3.1, h3.2, h4.1, h4.2]

/-- C9: the spawn flat zone overrides the harmonic profile — the height is
exactly `baseHeight` (450) whenever the wrapped coordinate is at most 300,
equals `baseHeight + (hillHeight - baseHeight) * t^2` with
`t = (normalizedX - 300) / 100` strictly between 300 and 400, and equals the
harmonic hill height at and above 400; and on the blend window the height
stays within `(175/2) * t^2` of the flat height (for any sine bounded by 1),
so the one-sided slope at the flat-to-blend boundary `x = 300` vanishes like
the flat zone's slope — no discontinuous slope is introduced there. -/
theorem flatZone_spec (t : Terrain) (msin : ℚ → ℚ) (hb : ∀ y, |msin y| ≤ 1)
    (x : ℚ) :
    (t.getTerrainHeight msin x =
      if wrap x ≤ 300 then Terrain.baseHeight
      else if wrap x < 400 then
        Terrain.baseHeight + (t.getHillHeight msin (wrap x) - Terrain.baseHeight) *
          (((wrap x - 300) / 100) * ((wrap x - 300) / 100))
      else t.getHillHeight msin (wrap x)) ∧
    (300 < wrap x → wrap x < 400 →
      |t.getTerrainHeight msin x - t.getTerrainHeight msin 300|
        ≤ (175 / 2) * (((wrap x - 300) / 100) * ((wrap x - 300) / 100))) := by
  constructor
  · simp only [Terrain.getTerrainHeight]
    split_ifs with h1 h2 h3 h4 h5 <;> first | rfl | (exfalso; linarith)
  · intro h3 h4
    have hchar : t.getTerrainHeight msin x =
        Terrain.baseHeight + (t.getHillHeight msin (wrap x) - Terrain.baseHeight) *
          (((wrap x - 300) / 100) * ((wrap x - 300) / 100)) := by
      simp only [Terrain.getTerrainHeight]
      rw [if_pos h4, if_pos h3]
    have h300 : t.getTerrainHeight msin 300 = Terrain.baseHeight := by
      simp only [Terrain.getTerrainHeight]
      rw [wrap_eq_self 300 (by norm_num) (by norm_num [WORLD_WIDTH])]
      norm_num
    rw [hchar, h300, add_sub_cancel_left, abs_mul,
      abs_of_nonneg (mul_self_nonneg ((wrap x - 300) / 100))]
    exact mul_le_mul_of_nonneg_right (getHillHeight_dist t msin hb (wrap x))
      (mul_self_nonneg _)

/-- Witness for C9 at seed 7, `x = 350` (inside the blend window), with the
bounded sine stand-in `fun _ => 0`. -/
theorem flatZone_spec_witness :
    ((Terrain.mk 7).getTerrainHeight (fun _ => 0) 350 =
      if wrap 350 ≤ 300 then Terrain.baseHeight
      else if wrap 350 < 400 then
        Terrain.baseHeight +
          ((Terrain.mk 7).getHillHeight (fun _ => 0) (wrap 350) - Terrain.baseHeight) *
          (((wrap 350 - 300) / 100) * ((wrap 350 - 300) / 100))
      else (Terrain.mk 7).getHillHeight (fun _ => 0) (wrap 350)) ∧
    |(Terrain.mk 7).getTerrainHeight (fun _ => 0) 350 -
        (Terrain.mk 7).getTerrainHeight (fun _ => 0) 300|
      ≤ (175 / 2) * (((wrap 350 - 300) / 100) * ((wrap 350 - 300) / 100)) := by
  have hb : ∀ y : ℚ, |(fun _ : ℚ => (0 : ℚ)) y| ≤ 1 := by
    intro y
    norm_num
  have h := flatZone_spec (Terrain.mk 7) (fun _ => 0) hb 350
  have hw : wrap 350 = 350 := wrap_eq_self 350 (by norm_num) (by norm_num [WORLD_WIDTH])
  refine ⟨h.1, h.2 ?_ ?_⟩
  · rw [hw]
    norm_num
  · rw [hw]
    norm_num

/-- The host constant `Math.PI`: the IEEE-754 double nearest π, exactly
`884279719003555 / 2 ^ 48`. -/
def mathPI : ℚ := 884279719003555 / 281474976710656

lemma mathPI_pos : 0 < mathPI := by norm_num [mathPI]

/-- The linear blend `lerp` of `GhostVehicle.update` (GhostVehicle.ts
line 54): `a + (b - a) * t`. -/
def lerp (a b t : ℚ) : ℚ := a + (b - a) * t

/-- First while loop of `GhostVehicle.lerpAngle` (GhostVehicle.ts line 84):
`while (delta > Math.PI) delta -= Math.PI * 2`. -/
def reduceByTwoPI (d : ℚ) : ℚ :=
  if d > mathPI then reduceByTwoPI (d - mathPI * 2) else d
termination_by (⌈(d - mathPI) / (mathPI * 2)⌉).toNat
decreasing_by
  have hq : 0 < (d - mathPI) / (mathPI * 2) := by
    apply div_pos
    · linarith
    · linarith [mathPI_pos]
  have hstep : (d - mathPI * 2 - mathPI) / (mathPI * 2)
      = (d - mathPI) / (mathPI * 2) - 1 := by
    have h2 : mathPI * 2 ≠ 0 := by norm_num [mathPI]
    field_simp
    ring
  rw [hstep, show ((1 : ℚ)) = ((1 : ℤ) : ℚ) by norm_num, Int.ceil_sub_int]
  have hc : 0 < ⌈(d - mathPI) / (mathPI * 2)⌉ := Int.ceil_pos.mpr hq
  rw [Int.toNat_lt_toNat hc]
  omega

/-- Second while loop of `GhostVehicle.lerpAngle` (GhostVehicle.ts line 85):
`while (delta < -Math.PI) delta += Math.PI * 2`. -/
def raiseByTwoPI (d : ℚ) : ℚ :=
  if d < -mathPI then raiseByTwoPI (d + mathPI * 2) else d
termination_by (⌈(-mathPI - d) / (mathPI * 2)⌉).toNat
decreasing_by
  have hq : 0 < (-mathPI - d) / (mathPI * 2) := by
    apply div_pos
    · linarith
    · linarith [mathPI_pos]
  have hstep : (-mathPI - (d + mathPI * 2)) / (mathPI * 2)
      = (-mathPI - d) / (mathPI * 2) - 1 := by
    have h2 : mathPI * 2 ≠ 0 := by norm_num [mathPI]
    field_simp
    ring
  rw [hstep, show ((1 : ℚ)) = ((1 : ℤ) : ℚ) by norm_num, Int.ceil_sub_int]
  have hc : 0 < ⌈(-mathPI - d) / (mathPI * 2)⌉ := Int.ceil_pos.mpr hq
  rw [Int.toNat_lt_toNat hc]
  omega

/-- The normalized angle difference of `GhostVehicle.lerpAngle`
(GhostVehicle.ts lines 82-86): `delta = b - a` pushed by whole turns of
`2 * Math.PI` until the first loop leaves it at most π and the second loop
leaves it at least -π. -/
def lerpAngleDelta (a b : ℚ) : ℚ := raiseByTwoPI (reduceByTwoPI (b - a))

/-- `GhostVehicle.lerpAngle` (GhostVehicle.ts lines 81-87):
shortest-arc angle interpolation `a + delta * t`. -/
def lerpAngle (a b t : ℚ) : ℚ := a + lerpAngleDelta a b * t

/-- The five interpolated fields of a ghost snapshot (`PlayerState` minus
id/color/velocity, the fields `GhostVehicle.update` interpolates). -/
structure GhostState where
  x : ℚ
  y : ℚ
  angle : ℚ
  frontWheelAngle : ℚ
  rearWheelAngle : ℚ
deriving DecidableEq

/-- The interpolated state computed by `GhostVehicle.update` (GhostVehicle.ts
lines 48-79) after `interpolationTime` has accumulated to `elapsed` ms:
blend factor `t = min(elapsed / 100, 1)`, wrap-adjusted x lerp followed by
the JavaScript `% WORLD_WIDTH`, plain y lerp, shortest-arc angle lerps. -/
def ghostInterpolate (currentState targetState : GhostState) (elapsed : ℚ) :
    GhostState :=
  let t := min (elapsed / 100) 1
  let dx := targetState.x - currentState.x
  let currentX := if |dx| > WORLD_WIDTH / 2 ∧ dx > 0
    then currentState.x + WORLD_WIDTH else currentState.x
  let targetX := if |dx| > WORLD_WIDTH / 2 ∧ ¬ dx > 0
    then targetState.x + WORLD_WIDTH else targetState.x
  { x := jsMod (lerp currentX targetX t) WORLD_WIDTH
    y := lerp currentState.y targetState.y t
    angle := lerpAngle currentState.angle targetState.angle t
    frontWheelAngle :=
      lerpAngle currentState.frontWheelAngle targetState.frontWheelAngle t
    rearWheelAngle :=
      lerpAngle currentState.rearWheelAngle targetState.rearWheelAngle t }

lemma reduceByTwoPI_le (d : ℚ) : reduceByTwoPI d ≤ mathPI := by
  induction d using reduceByTwoPI.induct with
  | case1 d h ih =>
    rw [reduceByTwoPI, if_pos h]
    exact ih
  | case2 d h =>
    rw [reduceByTwoPI, if_neg h]
    exact not_lt.mp h

lemma reduceByTwoPI_modEq (d : ℚ) : ∃ k : ℤ, reduceByTwoPI d = d - mathPI * 2 * k := by
  induction d using reduceByTwoPI.induct with
  | case1 d h ih =>
    obtain ⟨k, hk⟩ := ih
    refine ⟨k + 1, ?_⟩
    rw [reduceByTwoPI, if_pos h, hk]
    push_cast
    ring
  | case2 d h =>
    refine ⟨0, ?_⟩
    rw [reduceByTwoPI, if_neg h]
    push_cast
    ring

lemma reduceByTwoPI_eq_self (d : ℚ) (h : d ≤ mathPI) : reduceByTwoPI d = d := by
  rw [reduceByTwoPI, if_neg (not_lt.mpr h)]

lemma raiseByTwoPI_ge (d : ℚ) : -mathPI ≤ raiseByTwoPI d := by
  induction d using raiseByTwoPI.induct with
  | case1 d h ih =>
    rw [raiseByTwoPI, if_pos h]
    exact ih
  | case2 d h =>
    rw [raiseByTwoPI, if_neg h]
    exact not_lt.mp h

lemma raiseByTwoPI_le (d : ℚ) (hd : d ≤ mathPI) : raiseByTwoPI d ≤ mathPI := by
  induction d using raiseByTwoPI.induct with
  | case1 d h ih =>
    rw [raiseByTwoPI, if_pos h]
    apply ih
    have hpi := mathPI_pos
    linarith
  | case2 d h =>
    rw [raiseByTwoPI, if_neg h]
    exact hd

lemma raiseByTwoPI_modEq (d : ℚ) : ∃ k : ℤ, raiseByTwoPI d = d + mathPI * 2 * k := by
  induction d using raiseByTwoPI.induct with
  | case1 d h ih =>
    obtain ⟨k, hk⟩ := ih
    refine ⟨k + 1, ?_⟩
    rw [raiseByTwoPI, if_pos h, hk]
    push_cast
    ring
  | case2 d h =>
    refine ⟨0, ?_⟩
    rw [raiseByTwoPI, if_neg h]
    push_cast
    ring

lemma raiseByTwoPI_eq_self (d : ℚ) (h : -mathPI ≤ d) : raiseByTwoPI d = d := by
  rw [raiseByTwoPI, if_neg (not_lt.mpr h)]

lemma lerpAngleDelta_bounds (a b : ℚ) :
    -mathPI ≤ lerpAngleDelta a b ∧ lerpAngleDelta a b ≤ mathPI :=
  ⟨raiseByTwoPI_ge _, raiseByTwoPI_le _ (reduceByTwoPI_le _)⟩

lemma lerpAngleDelta_modEq (a b : ℚ) :
    ∃ k : ℤ, lerpAngleDelta a b = (b - a) + mathPI * 2 * k := by
  obtain ⟨k1, hk1⟩ := reduceByTwoPI_modEq (b - a)
  obtain ⟨k2, hk2⟩ := raiseByTwoPI_modEq (reduceByTwoPI (b - a))
  refine ⟨k2 - k1, ?_⟩
  unfold lerpAngleDelta
  rw [hk2, hk1]
  push_cast
  ring

lemma lerpAngleDelta_eq_of_short (a b : ℚ) (h1 : -mathPI ≤ b - a)
    (h2 : b - a ≤ mathPI) : lerpAngleDelta a b = b - a := by
  unfold lerpAngleDelta
  rw [reduceByTwoPI_eq_self _ h2, raiseByTwoPI_eq_self _ h1]

lemma lerp_zero (a b : ℚ) : lerp a b 0 = a := by
  unfold lerp
  ring

lemma lerp_one (a b : ℚ) : lerp a b 1 = b := by
  unfold lerp
  ring

lemma jsMod_W_self (x : ℚ) (h0 : 0 ≤ x) (h1 : x < WORLD_WIDTH) :
    jsMod x WORLD_WIDTH = x := by
  rw [jsMod_of_nonneg x _ h0 WORLD_WIDTH_pos]
  have hW : (0 : ℚ) < WORLD_WIDTH := WORLD_WIDTH_pos
  rw [Int.fract_eq_self.mpr ⟨div_nonneg h0 hW.le, (div_lt_one hW).mpr h1⟩]
  field_simp

lemma jsMod_W_add (x : ℚ) (h0 : 0 ≤ x) (h1 : x < WORLD_WIDTH) :
    jsMod (x + WORLD_WIDTH) WORLD_WIDTH = x := by
  have hW : (0 : ℚ) < WORLD_WIDTH := WORLD_WIDTH_pos
  rw [jsMod_of_nonneg _ _ (by linarith) hW]
  have hdiv : (x + WORLD_WIDTH) / WORLD_WIDTH = x / WORLD_WIDTH + ((1 : ℤ) : ℚ) := by
    field_simp
  rw [hdiv, Int.fract_add_int,
    Int.fract_eq_self.mpr ⟨div_nonneg h0 hW.le, (div_lt_one hW).mpr h1⟩]
  field_simp

/-- C5 counterexample: the claim asserts angle differences are normalized
into `(-π, π]`, and that at `t = 1` the rendered state equals the target
exactly. Both fail: (i) for source angle `0` and target angle `-π` the
normalized difference is `-π`, which is NOT in `(-π, π]`; (ii) for target
angle `3π/2` the normalized difference is `-π/2`, so at the end of the
window (elapsed = 100 ms, `t = 1`) the rendered angle is `-π/2`, not the
target's `3π/2`. -/
theorem ghostInterpolate_claim_counterexample :
    (lerpAngleDelta 0 (-mathPI) = -mathPI ∧
      ¬ (-mathPI < lerpAngleDelta 0 (-mathPI))) ∧
    ((ghostInterpolate ⟨0, 0, 0, 0, 0⟩ ⟨0, 0, 3 * mathPI / 2, 0, 0⟩ 100).angle
        = -(mathPI / 2) ∧
      (ghostInterpolate ⟨0, 0, 0, 0, 0⟩ ⟨0, 0, 3 * mathPI / 2, 0, 0⟩ 100).angle
        ≠ 3 * mathPI / 2) := by
  have e1 : lerpAngleDelta 0 (-mathPI) = -mathPI := by
    unfold lerpAngleDelta
    rw [show -mathPI - 0 = -mathPI by ring]
    rw [reduceByTwoPI, if_neg (by norm_num [mathPI])]
    rw [raiseByTwoPI, if_neg (by norm_num)]
  have e2 : lerpAngleDelta 0 (3 * mathPI / 2) = -(mathPI / 2) := by
    unfold lerpAngleDelta
    rw [show 3 * mathPI / 2 - 0 = 3 * mathPI / 2 by ring]
    rw [reduceByTwoPI, if_pos (by norm_num [mathPI])]
    rw [show 3 * mathPI / 2 - mathPI * 2 = -(mathPI / 2) by ring]
    rw [reduceByTwoPI, if_neg (by norm_num [mathPI])]
    rw [raiseByTwoPI, if_neg (by norm_num [mathPI])]
  have e3 : (ghostInterpolate ⟨0, 0, 0, 0, 0⟩ ⟨0, 0, 3 * mathPI / 2, 0, 0⟩ 100).angle
      = -(mathPI / 2) := by
    simp only [ghostInterpolate, lerpAngle]
    rw [e2]
    norm_num
  refine ⟨⟨e1, ?_⟩, e3, ?_⟩
  · rw [e1]
    simp
  · rw [e3]
    norm_num [mathPI]

/-- C5 (amended): for source and target states with x in `[0, W)`, the
interpolation renders exactly the source at `t = 0`; for any elapsed time at
or beyond the 100 ms window (`t` capped at 1, hence no overshoot) it renders
the target's position exactly and each target angle up to an exact whole
number of `2π` turns — exactly the target angle whenever the raw angle
difference lies within `[-π, π]`; and the angle difference is normalized
into the CLOSED interval `[-π, π]` (not `(-π, π]`) before scaling by `t`. -/
theorem ghostInterpolate_boundary (cs ts : GhostState)
    (hc0 : 0 ≤ cs.x) (hc1 : cs.x < WORLD_WIDTH)
    (ht0 : 0 ≤ ts.x) (ht1 : ts.x < WORLD_WIDTH) :
    ghostInterpolate cs ts 0 = cs ∧
    (∀ elapsed : ℚ, 100 ≤ elapsed →
      (ghostInterpolate cs ts elapsed).x = ts.x ∧
      (ghostInterpolate cs ts elapsed).y = ts.y ∧
      (∃ k : ℤ, (ghostInterpolate cs ts elapsed).angle
          = ts.angle + mathPI * 2 * k) ∧
      (∃ k : ℤ, (ghostInterpolate cs ts elapsed).frontWheelAngle
          = ts.frontWheelAngle + mathPI * 2 * k) ∧
      (∃ k : ℤ, (ghostInterpolate cs ts elapsed).rearWheelAngle
          = ts.rearWheelAngle + mathPI * 2 * k) ∧
      (-mathPI ≤ ts.angle - cs.angle → ts.angle - cs.angle ≤ mathPI →
        (ghostInterpolate cs ts elapsed).angle = ts.angle)) ∧
    (∀ a b : ℚ, -mathPI ≤ lerpAngleDelta a b ∧ lerpAngleDelta a b ≤ mathPI) := by
  refine ⟨?_, ?_, fun a b => lerpAngleDelta_bounds a b⟩
  · have ht : min ((0 : ℚ) / 100) 1 = 0 := by norm_num
    simp only [ghostInterpolate, ht, lerp_zero, lerpAngle, mul_zero, add_zero]
    have hx : jsMod (if |ts.x - cs.x| > WORLD_WIDTH / 2 ∧ ts.x - cs.x > 0
        then cs.x + WORLD_WIDTH else cs.x) WORLD_WIDTH = cs.x := by
      split_ifs with h
      · exact jsMod_W_add cs.x hc0 hc1
      · exact jsMod_W_self cs.x hc0 hc1
    rw [hx]
  · intro elapsed he
    have ht : min (elapsed / 100) 1 = 1 := by
      rw [min_eq_right]
      rw [le_div_iff₀ (by norm_num : (0 : ℚ) < 100)]
      linarith
    have hx : (ghostInterpolate cs ts elapsed).x = ts.x := by
      simp only [ghostInterpolate, ht, lerp_one]
      split_ifs with h
      · exact jsMod_W_add ts.x ht0 ht1
      · exact jsMod_W_self ts.x ht0 ht1
    have hy : (ghostInterpolate cs ts elapsed).y = ts.y := by
      simp only [ghostInterpolate, ht, lerp_one]
    refine ⟨hx, hy, ?_, ?_, ?_, ?_⟩
    · obtain ⟨k, hk⟩ := lerpAngleDelta_modEq cs.angle ts.angle
      refine ⟨k, ?_⟩
      simp only [ghostInterpolate, ht]
      unfold lerpAngle
      rw [hk]
      ring
    · obtain ⟨k, hk⟩ := lerpAngleDelta_modEq cs.frontWheelAngle ts.frontWheelAngle
      refine ⟨k, ?_⟩
      simp only [ghostInterpolate, ht]
      unfold lerpAngle
      rw [hk]
      ring
    · obtain ⟨k, hk⟩ := lerpAngleDelta_modEq cs.rearWheelAngle ts.rearWheelAngle
      refine ⟨k, ?_⟩
      simp only [ghostInterpolate, ht]
      unfold lerpAngle
      rw [hk]
      ring
    · intro h1 h2
      simp only [ghostInterpolate, ht]
      unfold lerpAngle
      rw [lerpAngleDelta_eq_of_short cs.angle ts.angle h1 h2]
      ring

/-- Witness for C5 at concrete seam-crossing states: source
`(x, y, angles) = (100, 200, 1, 2, 3)`, target `(9800, 210, 2, 3, 4)`,
evaluated at elapsed 0 and 150 ms. -/
theorem ghostInterpolate_boundary_witness :
    ghostInterpolate ⟨100, 200, 1, 2, 3⟩ ⟨9800, 210, 2, 3, 4⟩ 0
        = ⟨100, 200, 1, 2, 3⟩ ∧
    (ghostInterpolate ⟨100, 200, 1, 2, 3⟩ ⟨9800, 210, 2, 3, 4⟩ 150).x = 9800 ∧
    (ghostInterpolate ⟨100, 200, 1, 2, 3⟩ ⟨9800, 210, 2, 3, 4⟩ 150).angle = 2 := by
  have h := ghostInterpolate_boundary ⟨100, 200, 1, 2, 3⟩ ⟨9800, 210, 2, 3, 4⟩
    (by norm_num) (by norm_num [WORLD_WIDTH]) (by norm_num)
    (by norm_num [WORLD_WIDTH])
  have h150 := h.2.1 150 (by norm_num)
  refine ⟨h.1, h150.1, ?_⟩
  have := h150.2.2.2.2.2 (by norm_num [mathPI]) (by norm_num [mathPI])
  simpa using this

/-- A Matter body as seen by `Vehicle.wrapPosition`: a position and a
velocity (`Matter.Body.setPosition` changes the position only). -/
structure Body where
  px : ℚ
  py : ℚ
  vx : ℚ
  vy : ℚ
deriving DecidableEq

/-- `Matter.Body.setPosition(body, {x, y: body.position.y})`: replace the
x coordinate, keep y and the velocity. -/
def Body.setPositionX (b : Body) (x : ℚ) : Body :=
  { b with px := x }

/-- The three physics bodies of the player vehicle (Terrain.ts `Vehicle`
class): chassis and the two wheels. -/
structure Vehicle where
  chassis : Body
  frontWheel : Body
  rearWheel : Body
deriving DecidableEq

/-- `Vehicle.wrapPosition` (Terrain.ts lines 402-433): when the chassis x is
beyond `WORLD_WIDTH` move all three bodies by `-WORLD_WIDTH`; when it is
below 0 move all three by `+WORLD_WIDTH`; otherwise leave everything alone. -/
def Vehicle.wrapPosition (v : Vehicle) : Vehicle :=
  if v.chassis.px > WORLD_WIDTH then
    { chassis := v.chassis.setPositionX (v.chassis.px + -WORLD_WIDTH)
      frontWheel := v.frontWheel.setPositionX (v.frontWheel.px + -WORLD_WIDTH)
      rearWheel := v.rearWheel.setPositionX (v.rearWheel.px + -WORLD_WIDTH) }
  else if v.chassis.px < 0 then
    { chassis := v.chassis.setPositionX (v.chassis.px + WORLD_WIDTH)
      frontWheel := v.frontWheel.setPositionX (v.frontWheel.px + WORLD_WIDTH)
      rearWheel := v.rearWheel.setPositionX (v.rearWheel.px + WORLD_WIDTH) }
  else v

/-- All three bodies translated horizontally by the same offset: x shifted
by `off`, y untouched, velocities untouched — hence each wheel's relative
offset from the chassis (both coordinates) is also untouched. -/
def Vehicle.translatedBy (v w : Vehicle) (off : ℚ) : Prop :=
  w.chassis.px = v.chassis.px + off ∧ w.chassis.py = v.chassis.py ∧
  w.frontWheel.px = v.frontWheel.px + off ∧ w.frontWheel.py = v.frontWheel.py ∧
  w.rearWheel.px = v.rearWheel.px + off ∧ w.rearWheel.py = v.rearWheel.py ∧
  w.chassis.vx = v.chassis.vx ∧ w.chassis.vy = v.chassis.vy ∧
  w.frontWheel.vx = v.frontWheel.vx ∧ w.frontWheel.vy = v.frontWheel.vy ∧
  w.rearWheel.vx = v.rearWheel.vx ∧ w.rearWheel.vy = v.rearWheel.vy ∧
  w.frontWheel.px - w.chassis.px = v.frontWheel.px - v.chassis.px ∧
  w.frontWheel.py - w.chassis.py = v.frontWheel.py - v.chassis.py ∧
  w.rearWheel.px - w.chassis.px = v.rearWheel.px - v.chassis.px ∧
  w.rearWheel.py - w.chassis.py = v.rearWheel.py - v.chassis.py

/-- The vehicle used in the C4 counterexample: chassis x exactly at
`WORLD_WIDTH = 10000`, wheels nearby, all moving right. -/
def vehicleAtSeam : Vehicle :=
  { chassis := ⟨10000, 300, 5, 0⟩
    frontWheel := ⟨10040, 330, 5, 0⟩
    rearWheel := ⟨9960, 330, 5, 0⟩ }

/-- C4 counterexample: the claim says the wrap correction translates the
bodies by `±W` whenever chassis x is outside `[0, W)`. At chassis
`x = 10000 = W` — outside `[0, W)` — `wrapPosition` tests `x > W` and
`x < 0`, both false, and moves nothing: the chassis x stays `10000`, which
is neither `10000 - W = 0` nor `10000 + W = 20000`. -/
theorem wrapPosition_claim_counterexample :
    ¬ (0 ≤ vehicleAtSeam.chassis.px ∧ vehicleAtSeam.chassis.px < WORLD_WIDTH) ∧
    vehicleAtSeam.wrapPosition = vehicleAtSeam ∧
    vehicleAtSeam.wrapPosition.chassis.px
      ≠ vehicleAtSeam.chassis.px + -WORLD_WIDTH ∧
    vehicleAtSeam.wrapPosition.chassis.px
      ≠ vehicleAtSeam.chassis.px + WORLD_WIDTH := by
  refine ⟨?_, ?_, ?_, ?_⟩ <;>
    norm_num [vehicleAtSeam, Vehicle.wrapPosition, WORLD_WIDTH]

/-- C4 (amended): whenever the chassis x is strictly beyond `W` the wrap
correction translates chassis, front wheel and rear wheel by the identical
`-W` x-offset in the same step; whenever it is strictly below 0, by the
identical `+W`; and every y position, every velocity and each wheel's
relative offset from the chassis are preserved. When chassis x lies in the
closed interval `[0, W]` (including the boundary point `x = W`, where the
original claim demanded a move), no body is moved at all. -/
theorem wrapPosition_correct (v : Vehicle) :
    (v.chassis.px > WORLD_WIDTH →
      v.translatedBy v.wrapPosition (-WORLD_WIDTH)) ∧
    (v.chassis.px < 0 →
      v.translatedBy v.wrapPosition WORLD_WIDTH) ∧
    (0 ≤ v.chassis.px → v.chassis.px ≤ WORLD_WIDTH → v.wrapPosition = v) := by
  refine ⟨?_, ?_, ?_⟩
  · intro h
    simp only [Vehicle.wrapPosition, if_pos h, Vehicle.translatedBy,
      Body.setPositionX]
    norm_num
  · intro h
    have hnot : ¬ v.chassis.px > WORLD_WIDTH := by
      have := WORLD_WIDTH_pos
      push_neg
      linarith
    simp only [Vehicle.wrapPosition, if_neg hnot, if_pos h, Vehicle.translatedBy,
      Body.setPositionX]
    norm_num
  · intro h0 h1
    have hn1 : ¬ v.chassis.px > WORLD_WIDTH := not_lt.mpr h1
    have hn2 : ¬ v.chassis.px < 0 := not_lt.mpr h0
    simp only [Vehicle.wrapPosition, if_neg hn1, if_neg hn2]

/-- Witness for C4 on a vehicle 50 px past the seam (chassis x = 10050). -/
theorem wrapPosition_correct_witness :
    Vehicle.translatedBy
      { chassis := ⟨10050, 300, 5, 0⟩, frontWheel := ⟨10090, 330, 5, 0⟩,
        rearWheel := ⟨10010, 330, 5, 0⟩ }
      (Vehicle.wrapPosition
        { chassis := ⟨10050, 300, 5, 0⟩, frontWheel := ⟨10090, 330, 5, 0⟩,
          rearWheel := ⟨10010, 330, 5, 0⟩ })
      (-WORLD_WIDTH) :=
  (wrapPosition_correct _).1 (by norm_num [WORLD_WIDTH])

/-- The wire-level player snapshot `PlayerState` (shared/types). -/
structure PlayerState where
  id : String
  x : ℚ
  y : ℚ
  angle : ℚ
  frontWheelAngle : ℚ
  rearWheelAngle : ℚ
  velocityX : ℚ
  velocityY : ℚ
  color : ℕ
deriving DecidableEq

/-- A registry entry (`Player` interface of server/GameRoom.ts). -/
structure Player where
  id : String
  state : PlayerState
  lastUpdate : ℤ
deriving DecidableEq

/-- The payload of an update: `Omit<PlayerState, 'id' | 'color'>`. -/
structure StateUpdate where
  x : ℚ
  y : ℚ
  angle : ℚ
  frontWheelAngle : ℚ
  rearWheelAngle : ℚ
  velocityX : ℚ
  velocityY : ℚ
deriving DecidableEq

/-- The server's `Map<string, Player>` keyed by id, modelled as its entry
list in insertion order (keys unique in an actual `Map`; theorems that need
uniqueness take it as a `Nodup` hypothesis). `Map.get` is `find?` on the
key. -/
def getPlayer (room : List Player) (id : String) : Option Player :=
  room.find? fun p => p.id = id

/-- The in-place mutation `player.state = {...state, id, color: player.state.color};
player.lastUpdate = Date.now()` applied to one entry
(`GameRoom.updatePlayerState`, server/GameRoom.ts lines 53-59). -/
def applyUpdate (p : Player) (id : String) (s : StateUpdate) (now : ℤ) : Player :=
  { p with
    state := { id := id, x := s.x, y := s.y, angle := s.angle,
               frontWheelAngle := s.frontWheelAngle,
               rearWheelAngle := s.rearWheelAngle,
               velocityX := s.velocityX, velocityY := s.velocityY,
               color := p.state.color }
    lastUpdate := now }

/-- `GameRoom.updatePlayerState` (server/GameRoom.ts lines 53-59): look the
id up; when found, overwrite that entry's state wholesale (forcing `id` and
keeping the stored `color`) and refresh `lastUpdate`; when absent, do
nothing. On an id-keyed map this is: rewrite the matching entry, keep the
rest. -/
def updatePlayerState (room : List Player) (id : String) (s : StateUpdate)
    (now : ℤ) : List Player :=
  room.map fun p => if p.id = id then applyUpdate p id s now else p

/-- `GameRoom.removePlayer` / `Map.delete` (server/GameRoom.ts lines 47-50):
drop the entry with the given key. -/
def removePlayer (room : List Player) (id : String) : List Player :=
  room.filter fun p => p.id ≠ id

/-- `GameRoom.cleanupStalePlayers` (server/GameRoom.ts lines 78-94): collect
the ids whose entry is older than `staleTimeout = 30000` ms, then remove each
collected id; return the new registry together with the returned stale-id
list. -/
def cleanupStalePlayers (room : List Player) (now : ℤ) :
    List Player × List String :=
  let staleIds := (room.filter fun p => now - p.lastUpdate > 30000).map Player.id
  (staleIds.foldl removePlayer room, staleIds)

/-- The client-side self filter of `SocketClient.setupListeners`
(src/network/SocketClient.ts, `players` branch):
`message.players.filter(p => p.id !== this.playerId)`. -/
def filterSelf (players : List PlayerState) (playerId : String) :
    List PlayerState :=
  players.filter fun p => p.id ≠ playerId

/-- C10: the client delivers to the players-update callback exactly the
snapshots whose id differs from the locally assigned player id; in
particular the local player's own snapshot is always filtered out, so no
ghost is ever created for the local player. -/
theorem filterSelf_exact (players : List PlayerState) (playerId : String)
    (p : PlayerState) :
    p ∈ filterSelf players playerId ↔ p ∈ players ∧ p.id ≠ playerId := by
  unfold filterSelf
  rw [List.mem_filter]
  simp

lemma getPlayer_id (room : List Player) (id : String) (p : Player)
    (h : getPlayer room id = some p) : p.id = id := by
  have := List.find?_some h
  simpa using this

lemma updatePlayerState_not_found (room : List Player) (id : String)
    (s : StateUpdate) (now : ℤ) (h : getPlayer room id = none) :
    updatePlayerState room id s now = room := by
  induction room with
  | nil => rfl
  | cons q rest ih =>
    unfold getPlayer at h ih
    by_cases hq : q.id = id
    · rw [List.find?_cons_of_pos _ (by simpa using hq)] at h
      exact absurd h (by simp)
    · rw [List.find?_cons_of_neg _ (by simpa using hq)] at h
      unfold updatePlayerState at ih ⊢
      rw [List.map_cons, if_neg hq, ih h]

lemma updatePlayerState_found (room : List Player) (id : String)
    (s : StateUpdate) (now : ℤ) (p : Player) (h : getPlayer room id = some p) :
    getPlayer (updatePlayerState room id s now) id
      = some (applyUpdate p id s now) := by
  induction room with
  | nil => exact absurd h (by simp [getPlayer])
  | cons q rest ih =>
    unfold getPlayer at h ih ⊢
    unfold updatePlayerState at ih ⊢
    rw [List.map_cons]
    by_cases hq : q.id = id
    · rw [List.find?_cons_of_pos _ (by simpa using hq)] at h
      have hqp : q = p := by simpa using h
      subst hqp
      rw [if_pos hq]
      have hid : (applyUpdate q id s now).id = q.id := rfl
      rw [List.find?_cons_of_pos _ (by simp [hid, hq])]
    · rw [List.find?_cons_of_neg _ (by simpa using hq)] at h
      rw [if_neg hq, List.find?_cons_of_neg _ (by simpa using hq)]
      exact ih h

lemma mem_updatePlayerState_of_ne (room : List Player) (id : String)
    (s : StateUpdate) (now : ℤ) (q : Player) (hq : q ∈ room)
    (hne : q.id ≠ id) : q ∈ updatePlayerState room id s now := by
  unfold updatePlayerState
  have heq : (if q.id = id then applyUpdate q id s now else q) = q := if_neg hne
  exact heq ▸ List.mem_map_of_mem _ hq

/-- C7: if the id exists in the registry, `updatePlayerState` replaces that
player's state fields wholesale while `id` and `color` keep their previous
values, and refreshes `lastUpdate`; if the id does not exist the call leaves
the entire registry unchanged (a silent no-op — the function is total, no
error path exists); entries under other ids survive untouched. -/
theorem updatePlayerState_spec (room : List Player) (id : String)
    (s : StateUpdate) (now : ℤ) :
    (getPlayer room id = none → updatePlayerState room id s now = room) ∧
    (∀ p : Player, getPlayer room id = some p → p.state.id = p.id →
      getPlayer (updatePlayerState room id s now) id
        = some { p with
                 state := { p.state with
                            x := s.x, y := s.y, angle := s.angle,
                            frontWheelAngle := s.frontWheelAngle,
                            rearWheelAngle := s.rearWheelAngle,
                            velocityX := s.velocityX,
                            velocityY := s.velocityY }
                 lastUpdate := now }) ∧
    (∀ q ∈ room, q.id ≠ id → q ∈ updatePlayerState room id s now) := by
  refine ⟨updatePlayerState_not_found room id s now, ?_, ?_⟩
  · intro p hp hpid
    rw [updatePlayerState_found room id s now p hp]
    have hid : p.state.id = id := by
      rw [hpid]
      exact getPlayer_id room id p hp
    unfold applyUpdate
    rw [← hid]
  · intro q hq hne
    exact mem_updatePlayerState_of_ne room id s now q hq hne

/-- Witness for C7: a two-entry registry; an update under the present id
`a` rewrites exactly that entry, an update under the absent id `zz` is a
registry no-op. -/
theorem updatePlayerState_spec_witness :
    updatePlayerState
        [⟨"a", ⟨"a", 200, 300, 0, 0, 0, 0, 0, 1⟩, 10⟩,
         ⟨"b", ⟨"b", 201, 301, 0, 0, 0, 0, 0, 2⟩, 11⟩]
        "zz" ⟨7, 8, 9, 1, 2, 3, 4⟩ 50
      = [⟨"a", ⟨"a", 200, 300, 0, 0, 0, 0, 0, 1⟩, 10⟩,
         ⟨"b", ⟨"b", 201, 301, 0, 0, 0, 0, 0, 2⟩, 11⟩] ∧
    getPlayer
        (updatePlayerState
          [⟨"a", ⟨"a", 200, 300, 0, 0, 0, 0, 0, 1⟩, 10⟩,
           ⟨"b", ⟨"b", 201, 301, 0, 0, 0, 0, 0, 2⟩, 11⟩]
          "a" ⟨7, 8, 9, 1, 2, 3, 4⟩ 50) "a"
      = some ⟨"a", ⟨"a", 7, 8, 9, 1, 2, 3, 4, 1⟩, 50⟩ := by
  have h := updatePlayerState_spec
    [⟨"a", ⟨"a", 200, 300, 0, 0, 0, 0, 0, 1⟩, 10⟩,
     ⟨"b", ⟨"b", 201, 301, 0, 0, 0, 0, 0, 2⟩, 11⟩]
  refine ⟨(h "zz" ⟨7, 8, 9, 1, 2, 3, 4⟩ 50).1 (by decide), ?_⟩
  have h2 := (h "a" ⟨7, 8, 9, 1, 2, 3, 4⟩ 50).2.1
    ⟨"a", ⟨"a", 200, 300, 0, 0, 0, 0, 0, 1⟩, 10⟩ (by decide) rfl
  exact h2

lemma foldl_removePlayer (ids : List String) (room : List Player) :
    ids.foldl removePlayer room = room.filter fun p => p.id ∉ ids := by
  induction ids generalizing room with
  | nil =>
    rw [List.foldl_nil]
    rw [List.filter_eq_self.mpr]
    intro p _
    simp
  | cons i is ih =>
    rw [List.foldl_cons, ih]
    unfold removePlayer
    rw [List.filter_filter]
    apply List.filter_congr
    intro p _
    simp only [List.mem_cons, not_or, decide_not]
    rcases Decidable.em (p.id = i) with h | h <;>
      rcases Decidable.em (p.id ∈ is) with h2 | h2 <;>
        simp [h, h2]

lemma stale_id_mem_iff (room : List Player) (now : ℤ)
    (huniq : (room.map Player.id).Nodup) (p : Player) (hp : p ∈ room) :
    p.id ∈ ((room.filter fun q => now - q.lastUpdate > 30000).map Player.id)
      ↔ now - p.lastUpdate > 30000 := by
  constructor
  · intro h
    obtain ⟨q, hqmem, hqid⟩ := List.mem_map.mp h
    obtain ⟨hqroom, hstale⟩ := List.mem_filter.mp hqmem
    have hqp : q = p :=
      List.inj_on_of_nodup_map huniq hqroom hp hqid
    subst hqp
    simpa using hstale
  · intro h
    exact List.mem_map_of_mem _ (List.mem_filter.mpr ⟨hp, by simpa using h⟩)

/-- C8: `cleanupStalePlayers` returns exactly the ids of entries whose age
`now - lastUpdate` strictly exceeds the fixed 30000 ms threshold, and the
surviving registry consists exactly of the entries whose age is at most the
threshold, each kept unchanged; in particular an entry whose age equals
30000 exactly is not evicted, while any entry past the threshold is removed
and its id reported. -/
theorem cleanupStalePlayers_spec (room : List Player) (now : ℤ)
    (huniq : (room.map Player.id).Nodup) :
    ((cleanupStalePlayers room now).2
      = (room.filter fun p => now - p.lastUpdate > 30000).map Player.id) ∧
    ((cleanupStalePlayers room now).1
      = room.filter fun p => now - p.lastUpdate ≤ 30000) ∧
    (∀ p ∈ room, now - p.lastUpdate = 30000 →
      p ∈ (cleanupStalePlayers room now).1) ∧
    (∀ p ∈ room, now - p.lastUpdate > 30000 →
      p ∉ (cleanupStalePlayers room now).1 ∧
      p.id ∈ (cleanupStalePlayers room now).2) := by
  have hreg : (cleanupStalePlayers room now).1
      = room.filter fun p => now - p.lastUpdate ≤ 30000 := by
    show ((room.filter fun p => now - p.lastUpdate > 30000).map Player.id).foldl
        removePlayer room = _
    rw [foldl_removePlayer]
    apply List.filter_congr
    intro p hp
    have hiff := stale_id_mem_iff room now huniq p hp
    rcases Decidable.em (now - p.lastUpdate > 30000) with h | h
    · have hmem := hiff.mpr h
      have h2 : ¬ (now - p.lastUpdate ≤ 30000) := by omega
      simp [hmem, h2]
    · have hmem : p.id ∉ (room.filter fun q => now - q.lastUpdate > 30000).map
          Player.id := fun hm => h (hiff.mp hm)
      simp [hmem, not_lt.mp h]
  refine ⟨rfl, hreg, ?_, ?_⟩
  · intro p hp hage
    rw [hreg]
    exact List.mem_filter.mpr ⟨hp, by simp [hage]⟩
  · intro p hp hage
    constructor
    · rw [hreg]
      intro hmem
      have := (List.mem_filter.mp hmem).2
      simp only [decide_eq_true_eq] at this
      linarith
    · show p.id ∈ (room.filter fun q => now - q.lastUpdate > 30000).map Player.id
      exact List.mem_map_of_mem _ (List.mem_filter.mpr ⟨hp, by simpa using hage⟩)

/-- Witness for C8: registry with three entries at `now = 31000` — ages
31000 (stale, evicted and reported), exactly 30000 (boundary, kept) and
26000 (fresh, kept). -/
theorem cleanupStalePlayers_spec_witness :
    (cleanupStalePlayers
        [⟨"a", ⟨"a", 0, 0, 0, 0, 0, 0, 0, 1⟩, 0⟩,
         ⟨"b", ⟨"b", 0, 0, 0, 0, 0, 0, 0, 2⟩, 1000⟩,
         ⟨"c", ⟨"c", 0, 0, 0, 0, 0, 0, 0, 3⟩, 5000⟩] 31000).2 = ["a"] ∧
    (cleanupStalePlayers
        [⟨"a", ⟨"a", 0, 0, 0, 0, 0, 0, 0, 1⟩, 0⟩,
         ⟨"b", ⟨"b", 0, 0, 0, 0, 0, 0, 0, 2⟩, 1000⟩,
         ⟨"c", ⟨"c", 0, 0, 0, 0, 0, 0, 0, 3⟩, 5000⟩] 31000).1
      = [⟨"b", ⟨"b", 0, 0, 0, 0, 0, 0, 0, 2⟩, 1000⟩,
         ⟨"c", ⟨"c", 0, 0, 0, 0, 0, 0, 0, 3⟩, 5000⟩] := by
  have h := cleanupStalePlayers_spec
    [⟨"a", ⟨"a", 0, 0, 0, 0, 0, 0, 0, 1⟩, 0⟩,
     ⟨"b", ⟨"b", 0, 0, 0, 0, 0, 0, 0, 2⟩, 1000⟩,
     ⟨"c", ⟨"c", 0, 0, 0, 0, 0, 0, 0, 3⟩, 5000⟩] 31000 (by decide)
  constructor
  · rw [h.1]
    decide
  · rw [h.2.1]
    decide
